import Mathlib

/-!
Verification of the `mkpdh_defs.go` code generator
(`src/helpers/windows/pdh/mkpdh_defs.go`).

The program is a five-step pipeline: expand macros with `gcc -E -dD -`,
scan the expanded output for lines matching the regular expression
`^#define (PDH_[\w_]+)`, render the captured names through a fixed
`text/template`, write the rendered text to the output file, and run
`gofmt -w` on that file.

Modelling choices:
* text is `List Char` (`Text`), so list induction applies directly;
* the regular expression `^#define (PDH_[\w_]+)` is translated to an
  explicit matching function (`findStringSubmatch`), faithful to Go
  regexp semantics for this pattern: anchored at the start of the
  string, `\w` is ASCII `[0-9A-Za-z_]`, and `+` is greedy (the capture
  is the maximal run of word characters after the literal prefix);
* the scanner loop of `getErrorDefines` is translated accumulator and
  all (`getErrorDefinesLoop`); the source never inspects `s.Err()`
  after the loop, so the model records a possible stream fault in the
  `CmdOutput` value and, like the source, never consults it;
* external effects (gcc, file creation, gofmt) are parameters of an
  environment record, and `runMain` mirrors the control flow of `main`.
-/

/-- Rendered and scanned text, as a list of characters. -/
abbrev Text := List Char

/-- Coerce a string literal to `Text`. -/
def lit (s : String) : Text := s.data

/-- Go regexp `\w` (ASCII word character): `[0-9A-Za-z_]`. -/
def isWordChar (c : Char) : Bool :=
  (('a' ≤ c) && (c ≤ 'z')) || (('A' ≤ c) && (c ≤ 'Z')) ||
  (('0' ≤ c) && (c ≤ '9')) || (c = '_')

/-- Strip a literal pattern from the front of a text; `some rest` iff the
text starts with the pattern. This models the anchored literal part of
the regular expression. -/
def dropLiteral : Text → Text → Option Text
  | [], l => some l
  | _ :: _, [] => none
  | p :: ps, c :: cs => if c = p then dropLiteral ps cs else none

/-- Translation of `pdhErrorRegex.FindStringSubmatch` for the pattern
`^#define (PDH_[\w_]+)`: the result is `[]` when the line does not
match, and `[full, group]` when it does, where the capture group is
`PDH_` followed by the maximal nonempty run of word characters. -/
def findStringSubmatch (line : Text) : List Text :=
  match dropLiteral (lit "#define PDH_") line with
  | none => []
  | some rest =>
    let w := rest.takeWhile isWordChar
    if w = [] then []
    else [lit "#define PDH_" ++ w, lit "PDH_" ++ w]

/-- The name captured from one line, if any: `ms[1]` guarded by
`len(ms) > 1`, as in the body of the scanner loop. -/
def captureOf (line : Text) : Option Text :=
  let ms := findStringSubmatch line
  if ms.length > 1 then some (ms.getD 1 []) else none

/-- The scanner loop of `getErrorDefines`: iterate over the lines, and
for each line whose submatch list has more than one element append the
first capture group to the accumulator. -/
def getErrorDefinesLoop : List Text → List Text → List Text
  | [], errors => errors
  | line :: rest, errors =>
    let ms := findStringSubmatch line
    if ms.length > 1 then
      getErrorDefinesLoop rest (errors ++ [ms.getD 1 []])
    else
      getErrorDefinesLoop rest errors

/-- Errors reported by external tools and file operations. -/
abbrev GoError := String

/-- The output of the expander as delivered to `bufio.Scanner`: the lines the
scanner yields before `Scan` returns `false`, and whether `Scan`
stopped because of a read fault (in which case `s.Err()` would be
non-nil) rather than end of input. -/
structure CmdOutput where
  lines : List Text
  fault : Bool

/-- Translation of `getErrorDefines`: if the gcc invocation failed,
propagate its error; otherwise scan the delivered lines and return the
collected names with a nil error. The source checks only `s.Scan()` and
never calls `s.Err()`, so `CmdOutput.fault` is not consulted: the function
returns `Except.ok` even when the stream ended in a read fault. -/
def getErrorDefines (gccResult : Except GoError CmdOutput) : Except GoError (List Text) :=
  match gccResult with
  | .error e => .error e
  | .ok s => .ok (getErrorDefinesLoop s.lines [])

/-- The expander output of the end-to-end scenario of the spec: two
matching `#define` lines and one unrelated one, no read fault. -/
def expanderOutputC6 : CmdOutput :=
  { lines := [lit "#define PDH_CSTATUS_VALID_DATA 0",
              lit "#define PDH_CSTATUS_NEW_DATA 1",
              lit "#define UNRELATED 2"],
    fault := false }

/-- An expander output whose stream ends in a read fault after one
delivered matching line. -/
def faultedOutput : CmdOutput :=
  { lines := [lit "#define PDH_CSTATUS_VALID_DATA 0"], fault := true }

theorem dropLiteral_eq_some_iff : ∀ (pat l r : Text), dropLiteral pat l = some r ↔ l = pat ++ r
  | [], l, r => by simp [dropLiteral]
  | _ :: _, [], _ => by simp [dropLiteral]
  | p :: ps, c :: cs, r => by
    simp only [dropLiteral, List.cons_append]
    by_cases hc : c = p
    · subst hc
      simp [dropLiteral_eq_some_iff ps cs r]
    · simp only [if_neg hc]
      constructor
      · intro h; exact absurd h (by simp)
      · intro h; exact absurd (List.cons.injEq .. ▸ h).1 hc

theorem captureOf_eq_some_iff (line cap : Text) :
    captureOf line = some cap ↔
      ∃ w r, line = lit "#define PDH_" ++ w ++ r ∧ w ≠ [] ∧
        (∀ c ∈ w, isWordChar c = true) ∧
        (∀ c, r.head? = some c → isWordChar c = false) ∧
        cap = lit "PDH_" ++ w := by
  unfold captureOf findStringSubmatch
  cases hdl : dropLiteral (lit "#define PDH_") line with
  | none =>
    simp only [List.length_nil]
    constructor
    · intro h; simp at h
    · rintro ⟨w, r, hline, -, -, -, -⟩
      rw [List.append_assoc] at hline
      have : dropLiteral (lit "#define PDH_") line = some (w ++ r) :=
        (dropLiteral_eq_some_iff _ _ _).mpr hline
      rw [hdl] at this; exact absurd this (by simp)
  | some rest =>
    have hline : line = lit "#define PDH_" ++ rest := (dropLiteral_eq_some_iff _ _ _).mp hdl
    by_cases hw : rest.takeWhile isWordChar = []
    · simp only [hw, if_pos rfl, List.length_nil]
      constructor
      · intro h; simp at h
      · rintro ⟨w, r, hl, hwne, hword, hrhead, -⟩
        rw [List.append_assoc] at hl
        have hrw : rest = w ++ r := by
          have := (dropLiteral_eq_some_iff (lit "#define PDH_") line (w ++ r)).mpr hl
          rw [hdl] at this; exact Option.some.injEq .. ▸ this
        have htw : rest.takeWhile isWordChar = w := by
          rw [hrw, List.takeWhile_append_of_pos hword]
          cases r with
          | nil => simp
          | cons c r' =>
            have : isWordChar c = false := hrhead c rfl
            simp [List.takeWhile_cons, this]
        exact (hwne (htw ▸ hw)).elim
    · simp only [if_neg hw]
      constructor
      · intro h
        refine ⟨rest.takeWhile isWordChar, rest.dropWhile isWordChar, ?_, hw, ?_, ?_, ?_⟩
        · rw [List.append_assoc, List.takeWhile_append_dropWhile]; exact hline
        · intro c hc; exact List.mem_takeWhile_imp hc
        · intro c hc
          have := List.head?_dropWhile_not isWordChar rest
          rw [hc] at this; exact this
        · have : cap = (lit "PDH_" ++ rest.takeWhile isWordChar) := by
            simpa using h.symm
          exact this
      · rintro ⟨w, r, hl, hwne, hword, hrhead, hcap⟩
        rw [List.append_assoc] at hl
        have hrw : rest = w ++ r := by
          have := (dropLiteral_eq_some_iff (lit "#define PDH_") line (w ++ r)).mpr hl
          rw [hdl] at this; exact Option.some.injEq .. ▸ this
        have htw : rest.takeWhile isWordChar = w := by
          rw [hrw, List.takeWhile_append_of_pos hword]
          cases r with
          | nil => simp
          | cons c r' =>
            have : isWordChar c = false := hrhead c rfl
            simp [List.takeWhile_cons, this]
        simp [htw, hcap]

theorem getErrorDefinesLoop_eq_append_filterMap
    (lines : List Text) : ∀ acc : List Text,
    getErrorDefinesLoop lines acc = acc ++ lines.filterMap captureOf := by
  induction lines with
  | nil => intro acc; simp [getErrorDefinesLoop]
  | cons line rest ih =>
    intro acc
    simp only [getErrorDefinesLoop, List.filterMap_cons]
    by_cases h : (findStringSubmatch line).length > 1
    · have hc : captureOf line = some ((findStringSubmatch line).getD 1 []) := by
        simp [captureOf, h]
      simp [if_pos h, hc, ih]
    · have hc : captureOf line = none := by simp [captureOf, h]
      simp [if_neg h, hc, ih]

theorem length_filterMap_eq_countP (f : Text → Option Text) (lines : List Text) :
    (lines.filterMap f).length = lines.countP (fun l => (f l).isSome) := by
  induction lines with
  | nil => rfl
  | cons line rest ih =>
    cases h : f line with
    | none => simp [List.filterMap_cons, List.countP_cons, h, ih]
    | some v => simp [List.filterMap_cons, List.countP_cons, h, ih]

/-- C1: for every expander output, the scanner result is exactly the
in-order list of the names captured from the lines that match
`^#define (PDH_[\w_]+)`: it is the `filterMap` of the per-line capture
over the lines (so order and duplicates are preserved and nothing is
synthesized or dropped outside the pattern-match step), and its length
is the count of matching lines. -/
theorem scanner_result_is_capture_filterMap (lines : List Text) :
    getErrorDefinesLoop lines [] = lines.filterMap captureOf ∧
    (getErrorDefinesLoop lines []).length =
      lines.countP (fun l => (captureOf l).isSome) := by
  constructor
  · simpa using getErrorDefinesLoop_eq_append_filterMap lines []
  · rw [getErrorDefinesLoop_eq_append_filterMap lines []]
    simpa using length_filterMap_eq_countP captureOf lines

/-- C6: on the expander output made of the lines
`#define PDH_CSTATUS_VALID_DATA 0`, `#define PDH_CSTATUS_NEW_DATA 1`
and `#define UNRELATED 2`, the scanner produces exactly
`[PDH_CSTATUS_VALID_DATA, PDH_CSTATUS_NEW_DATA]`; the unrelated line is
excluded. -/
theorem scanner_end_to_end_example :
    getErrorDefines (Except.ok expanderOutputC6) =
      Except.ok [lit "PDH_CSTATUS_VALID_DATA", lit "PDH_CSTATUS_NEW_DATA"] := by
  rfl

/-- C3 counterexample: on a stream that ends in a read fault (so that
`bufio.Scanner.Err` would be non-nil), `getErrorDefines` still returns a
successful result carrying the partially scanned sequence, not a
failing `StreamReadError` result: the source never consults `s.Err()`. -/
theorem scanner_fault_not_reported :
    faultedOutput.fault = true ∧
    getErrorDefines (Except.ok faultedOutput) =
      Except.ok [lit "PDH_CSTATUS_VALID_DATA"] := by
  exact ⟨rfl, rfl⟩

/-- C3 amended: when the gcc invocation itself succeeded, the scanner
returns success unconditionally — even when the stream ended in a read
fault — carrying the names captured from the lines delivered before the
fault (a partial result on a faulted stream). -/
theorem scanner_fault_returns_partial_ok (out : CmdOutput) (_h : out.fault = true) :
    getErrorDefines (Except.ok out) = Except.ok (out.lines.filterMap captureOf) := by
  simp only [getErrorDefines]
  rw [(scanner_result_is_capture_filterMap out.lines).1]

theorem scanner_fault_returns_partial_ok_witness :
    faultedOutput.fault = true ∧
    getErrorDefines (Except.ok faultedOutput) =
      Except.ok (faultedOutput.lines.filterMap captureOf) :=
  ⟨rfl, scanner_fault_returns_partial_ok faultedOutput rfl⟩

/-- C10: characterization of the per-line match of the scanner. A line
yields a capture iff it starts, at its very first character, with the
literal `#define ` followed immediately by `PDH_` and a nonempty run of
word characters; the capture is `PDH_` followed by the maximal such run
(the remainder of the line starts with a non-word character if it is
nonempty). In particular a line with leading whitespace or with the
marker mid-line yields nothing, and `#define PDH_FOO(x) 1` captures
exactly `PDH_FOO`. -/
theorem scanner_match_anchored_maximal :
    (∀ line cap : Text,
      captureOf line = some cap ↔
        ∃ w r, line = lit "#define PDH_" ++ w ++ r ∧ w ≠ [] ∧
          (∀ c ∈ w, isWordChar c = true) ∧
          (∀ c, r.head? = some c → isWordChar c = false) ∧
          cap = lit "PDH_" ++ w) ∧
    captureOf (lit " #define PDH_FOO 1") = none ∧
    captureOf (lit "x #define PDH_FOO 1") = none ∧
    captureOf (lit "#define PDH_FOO(x) 1") = some (lit "PDH_FOO") := by
  refine ⟨captureOf_eq_some_iff, by rfl, by rfl, by rfl⟩

/-- Parameters of the template, as in the source: a record holding the
scanned error names. -/
structure TemplateParams where
  Errors : List Text

/-- A node of the parsed `fileTemplate`: either literal text, or a
`range` over `.Errors` whose body is rendered once per entry. -/
inductive TmplNode where
  | text (s : Text)
  | rangeErrors (body : Text → Text)

/-- Literal text of `fileTemplate` up to the first
`{{- range ...}}` action. The leading `{{-` of that action trims the
newline after `const (`, so this chunk ends right after `const (`. -/
def headerText : Text := lit "\n// go run mkpdh_defs.go\n// MACHINE GENERATED BY THE ABOVE COMMAND; DO NOT EDIT\n\n// +build ignore\n\npackage pdh\n\n/*\n#include <pdh.h>\n#include <pdhmsg.h>\n#cgo LDFLAGS: -lpdh\n*/\nimport \"C\"\n\ntype PdhErrno uintptr\n\n// PDH Error Codes\nconst ("

/-- Body of the first `range`: the closing `}}` of the `range` action
keeps the following newline in the body, and the `{{-` of the `end`
action trims the newline before it, so one iteration renders a newline,
a tab, the entry, ` PdhErrno = C.` and the entry again. -/
def constEntry (e : Text) : Text := lit "\n\t" ++ e ++ lit " PdhErrno = C." ++ e

/-- Literal text between the first `{{- end }}` and the second
`{{- range ...}}` action, with the same trimming at both ends. -/
def midText : Text := lit "\n)\n\nvar pdhErrors = map[PdhErrno]struct\x7b\x7d\x7b"

/-- Body of the second `range`: a newline, a tab, the entry and
`: struct{}{},`. -/
def mapEntry (e : Text) : Text := lit "\n\t" ++ e ++ lit ": struct\x7b\x7d\x7b\x7d,"

/-- The hand-authored counter-format block of the template, line by
line: the `PdhCounterFormat` type and the six flag constants with
their comments. -/
def counterFormatLines : List Text :=
  [lit "type PdhCounterFormat uint32",
   lit "",
   lit "// PDH Counter Formats",
   lit "const (",
   lit "\t// PdhFmtDouble returns data as a double-precision floating point real.",
   lit "\tPdhFmtDouble PdhCounterFormat = C.PDH_FMT_DOUBLE",
   lit "\t// PdhFmtLarge returns data as a 64-bit integer.",
   lit "\tPdhFmtLarge PdhCounterFormat = C.PDH_FMT_LARGE",
   lit "\t// PdhFmtLong returns data as a long integer.",
   lit "\tPdhFmtLong PdhCounterFormat = C.PDH_FMT_LONG",
   lit "",
   lit "\t// Use bitwise operators to combine these values with the counter type to scale the value.",
   lit "",
   lit "    // Do not apply the counter\x27s default scaling factor.",
   lit "\tPdhFmtNoScale PdhCounterFormat = C.PDH_FMT_NOSCALE",
   lit "\t// Counter values greater than 100 (for example, counter values measuring",
   lit "\t// the processor load on multiprocessor computers) will not be reset to 100.",
   lit "\t// The default behavior is that counter values are capped at a value of 100.",
   lit "\tPdhFmtNoCap100 PdhCounterFormat = C.PDH_FMT_NOCAP100",
   lit "\t// Multiply the actual value by 1,000.",
   lit "\tPdhFmtMultiply1000 PdhCounterFormat = C.PDH_FMT_1000",
   lit ")"]

/-- Literal text of `fileTemplate` after the second `{{- end }}`: the
closing brace of the map, a blank line, the counter-format block, and
the final newline before the closing backquote of the Go raw string. -/
def tailText : Text := lit "\n\x7d\n\ntype PdhCounterFormat uint32\n\n// PDH Counter Formats\nconst (\n\t// PdhFmtDouble returns data as a double-precision floating point real.\n\tPdhFmtDouble PdhCounterFormat = C.PDH_FMT_DOUBLE\n\t// PdhFmtLarge returns data as a 64-bit integer.\n\tPdhFmtLarge PdhCounterFormat = C.PDH_FMT_LARGE\n\t// PdhFmtLong returns data as a long integer.\n\tPdhFmtLong PdhCounterFormat = C.PDH_FMT_LONG\n\n\t// Use bitwise operators to combine these values with the counter type to scale the value.\n\n    // Do not apply the counter\x27s default scaling factor.\n\tPdhFmtNoScale PdhCounterFormat = C.PDH_FMT_NOSCALE\n\t// Counter values greater than 100 (for example, counter values measuring\n\t// the processor load on multiprocessor computers) will not be reset to 100.\n\t// The default behavior is that counter values are capped at a value of 100.\n\tPdhFmtNoCap100 PdhCounterFormat = C.PDH_FMT_NOCAP100\n\t// Multiply the actual value by 1,000.\n\tPdhFmtMultiply1000 PdhCounterFormat = C.PDH_FMT_1000\n)\n"

/-- Render one node against the entry list bound to `.Errors`. -/
def execNode (errs : List Text) : TmplNode → Text
  | .text s => s
  | .rangeErrors body => (errs.map body).flatten

/-- The parse of `fileTemplate`, after applying the `{{-` and `-}}`
whitespace-trim rules of `text/template`: literal header, a `range`
emitting one constant declaration per entry, literal middle, a `range`
emitting one map entry per entry, literal tail. -/
def fileTemplateNodes : List TmplNode :=
  [.text headerText, .rangeErrors constEntry, .text midText,
   .rangeErrors mapEntry, .text tailText]

/-- Translation of `tmpl.Execute`: render every node of the parsed
template against the parameters and concatenate. The template engine
performs no other I/O and this template has no failing action, so the
result is a total function of the parameters. -/
def tmplExecute (p : TemplateParams) : Text :=
  (fileTemplateNodes.map (execNode p.Errors)).flatten

/-- Intercalate the newline character between lines. -/
def joinl : List Text → Text
  | [] => []
  | [l] => l
  | l :: ls => l ++ '\n' :: joinl ls

/-- Prepend a newline to a line. -/
def nlcons (l : Text) : Text := '\n' :: l

/-- Split a text at newline characters; inverse of `joinl` on
newline-free lines. -/
def splitLines : Text → List Text
  | [] => [[]]
  | c :: rest =>
    if c = '\n' then [] :: splitLines rest
    else
      match splitLines rest with
      | [] => [[c]]
      | l :: ls => (c :: l) :: ls

/-- The header chunk, line by line. -/
def headerLines : List Text :=
  [lit "",
   lit "// go run mkpdh_defs.go",
   lit "// MACHINE GENERATED BY THE ABOVE COMMAND; DO NOT EDIT",
   lit "",
   lit "// +build ignore",
   lit "",
   lit "package pdh",
   lit "",
   lit "/*",
   lit "#include <pdh.h>",
   lit "#include <pdhmsg.h>",
   lit "#cgo LDFLAGS: -lpdh",
   lit "*/",
   lit "import \"C\"",
   lit "",
   lit "type PdhErrno uintptr",
   lit "",
   lit "// PDH Error Codes",
   lit "const ("]

/-- The middle chunk, line by line (each preceded by a newline). -/
def midLines : List Text :=
  [lit ")", lit "", lit "var pdhErrors = map[PdhErrno]struct\x7b\x7d\x7b"]

/-- The tail chunk, line by line (each preceded by a newline); the
trailing newline of the template makes the last line empty. -/
def tailLines : List Text :=
  [lit "\x7d", lit ""] ++ counterFormatLines ++ [lit ""]

/-- The constant-declaration line rendered for one entry. -/
def constLine (e : Text) : Text := '\t' :: (e ++ lit " PdhErrno = C." ++ e)

/-- The membership-map line rendered for one entry. -/
def mapLine (e : Text) : Text := '\t' :: (e ++ lit ": struct\x7b\x7d\x7b\x7d,")

/-- A name as captured by the scanner: nonempty, word characters only. -/
def isWordName (e : Text) : Bool := !e.isEmpty && e.all isWordChar

/-- Recognize a constant-declaration line: a tab, then a nonempty word
run `w`, then ` PdhErrno = C.` followed by the same `w`. -/
def isConstDeclLine (l : Text) : Bool :=
  match l with
  | '\t' :: rest =>
    let w := rest.takeWhile isWordChar
    !w.isEmpty && (rest == w ++ lit " PdhErrno = C." ++ w)
  | _ => false

/-- Recognize a membership-map line: a tab, then a nonempty word run,
then `: struct{}{},`. -/
def isMapEntryLine (l : Text) : Bool :=
  match l with
  | '\t' :: rest =>
    let w := rest.takeWhile isWordChar
    !w.isEmpty && (rest == w ++ lit ": struct\x7b\x7d\x7b\x7d,")
  | _ => false

theorem joinl_cons (a : Text) (B : List Text) :
    joinl (a :: B) = a ++ (B.map nlcons).flatten := by
  induction B generalizing a with
  | nil => simp [joinl]
  | cons b B' ih =>
    rw [show joinl (a :: b :: B') = a ++ '\n' :: joinl (b :: B') from rfl, ih b]
    simp [nlcons]

theorem joinl_append_nl : ∀ (A B : List Text), A ≠ [] →
    joinl (A ++ B) = joinl A ++ (B.map nlcons).flatten
  | [], _, h => absurd rfl h
  | [a], B, _ => by simpa using joinl_cons a B
  | a :: a' :: A', B, _ => by
    have ih := joinl_append_nl (a' :: A') B (by simp)
    rw [show (a :: a' :: A') ++ B = a :: ((a' :: A') ++ B) from rfl,
        show joinl (a :: ((a' :: A') ++ B)) = a ++ '\n' :: joinl ((a' :: A') ++ B) from rfl,
        ih,
        show joinl (a :: a' :: A') = a ++ '\n' :: joinl (a' :: A') from rfl]
    simp

set_option maxRecDepth 4000 in
theorem headerText_eq_joinl : headerText = joinl headerLines := by rfl

set_option maxRecDepth 4000 in
theorem midText_eq : midText = (midLines.map nlcons).flatten := by rfl

set_option maxRecDepth 8000 in
theorem tailText_eq : tailText = (tailLines.map nlcons).flatten := by rfl

theorem constEntry_eq (e : Text) : constEntry e = nlcons (constLine e) := by rfl

theorem mapEntry_eq (e : Text) : mapEntry e = nlcons (mapLine e) := by rfl

theorem tmplExecute_eq_joinl (p : TemplateParams) :
    tmplExecute p =
      joinl (headerLines ++ (p.Errors.map constLine ++ (midLines ++
        (p.Errors.map mapLine ++ tailLines)))) := by
  rw [joinl_append_nl _ _ (by simp [headerLines])]
  have h1 : p.Errors.map constEntry = (p.Errors.map constLine).map nlcons := by
    rw [List.map_map]; exact List.map_congr_left (fun e _ => constEntry_eq e)
  have h2 : p.Errors.map mapEntry = (p.Errors.map mapLine).map nlcons := by
    rw [List.map_map]; exact List.map_congr_left (fun e _ => mapEntry_eq e)
  simp only [tmplExecute, fileTemplateNodes, execNode, List.map_cons, List.map_nil,
    List.flatten_cons, List.flatten_nil, List.map_append, List.flatten_append,
    headerText_eq_joinl, midText_eq, tailText_eq, h1, h2]
  simp [List.append_assoc]

theorem splitLines_no_nl (l : Text) (h : '\n' ∉ l) : splitLines l = [l] := by
  induction l with
  | nil => rfl
  | cons c rest ih =>
    have hc : ¬ c = '\n' := fun e => h (e ▸ List.mem_cons_self c rest)
    have hr : '\n' ∉ rest := fun m => h (List.mem_cons_of_mem _ m)
    simp [splitLines, hc, ih hr]

theorem splitLines_append_nl (a b : Text) (h : '\n' ∉ a) :
    splitLines (a ++ '\n' :: b) = a :: splitLines b := by
  induction a with
  | nil => simp [splitLines]
  | cons c a' ih =>
    have hc : ¬ c = '\n' := fun e => h (e ▸ List.mem_cons_self c a')
    have ha' : '\n' ∉ a' := fun m => h (List.mem_cons_of_mem _ m)
    simp [splitLines, hc, ih ha']

theorem splitLines_joinl : ∀ (L : List Text), L ≠ [] → (∀ l ∈ L, '\n' ∉ l) →
    splitLines (joinl L) = L
  | [], h, _ => absurd rfl h
  | [l], _, h => by simpa using splitLines_no_nl l (h l (by simp))
  | l :: l' :: ls, _, h => by
    rw [show joinl (l :: l' :: ls) = l ++ '\n' :: joinl (l' :: ls) from rfl,
        splitLines_append_nl _ _ (h l (by simp)),
        splitLines_joinl (l' :: ls) (by simp) (fun x hx => h x (List.mem_cons_of_mem _ hx))]

theorem isWordChar_ne_nl {c : Char} (h : isWordChar c = true) : ¬ c = '\n' := by
  intro e; subst e; exact absurd h (by decide)

theorem isWordName_all {e : Text} (h : isWordName e = true) :
    ∀ c ∈ e, isWordChar c = true := by
  have := (by simpa [isWordName] using h : (!e.isEmpty) = true ∧ e.all isWordChar = true)
  exact fun c hc => List.all_eq_true.mp this.2 c hc

theorem isWordName_ne_nil {e : Text} (h : isWordName e = true) : e ≠ [] := by
  have := (by simpa [isWordName] using h : (!e.isEmpty) = true ∧ e.all isWordChar = true)
  intro hnil; rw [hnil] at this; exact absurd this.1 (by decide)

theorem no_nl_of_wordName {e : Text} (h : isWordName e = true) : '\n' ∉ e := by
  intro hm; exact isWordChar_ne_nl (isWordName_all h '\n' hm) rfl

theorem no_nl_constLine {e : Text} (h : isWordName e = true) : '\n' ∉ constLine e := by
  intro hm
  rcases List.mem_cons.mp hm with h1 | h2
  · exact absurd h1 (by decide)
  · rcases List.mem_append.mp h2 with h3 | h4
    · rcases List.mem_append.mp h3 with h5 | h6
      · exact no_nl_of_wordName h h5
      · exact absurd h6 (by decide)
    · exact no_nl_of_wordName h h4

theorem no_nl_mapLine {e : Text} (h : isWordName e = true) : '\n' ∉ mapLine e := by
  intro hm
  rcases List.mem_cons.mp hm with h1 | h2
  · exact absurd h1 (by decide)
  · rcases List.mem_append.mp h2 with h3 | h4
    · exact no_nl_of_wordName h h3
    · exact absurd h4 (by decide)

set_option maxRecDepth 20000 in
theorem no_nl_fixed : ∀ l ∈ headerLines ++ midLines ++ tailLines, '\n' ∉ l := by decide

theorem takeWhile_of_wordName {e : Text} (h : isWordName e = true) (s : Text)
    (hs : ∀ c, s.head? = some c → isWordChar c = false) :
    (e ++ s).takeWhile isWordChar = e := by
  rw [List.takeWhile_append_of_pos (isWordName_all h)]
  cases s with
  | nil => simp
  | cons c s' =>
    have : isWordChar c = false := hs c rfl
    simp [List.takeWhile_cons, this]

theorem isConstDeclLine_constLine {e : Text} (h : isWordName e = true) :
    isConstDeclLine (constLine e) = true := by
  show isConstDeclLine ('\t' :: (e ++ lit " PdhErrno = C." ++ e)) = true
  have htw : (e ++ (lit " PdhErrno = C." ++ e)).takeWhile isWordChar = e :=
    takeWhile_of_wordName h _ (by intro c hc; cases hc; decide)
  simp only [isConstDeclLine, List.append_assoc, htw]
  rw [Bool.and_eq_true]
  refine ⟨?_, by simp⟩
  cases e with
  | nil => exact absurd rfl (isWordName_ne_nil h)
  | cons c e' => rfl

theorem isMapEntryLine_mapLine {e : Text} (h : isWordName e = true) :
    isMapEntryLine (mapLine e) = true := by
  show isMapEntryLine ('\t' :: (e ++ lit ": struct\x7b\x7d\x7b\x7d,")) = true
  have htw : (e ++ lit ": struct\x7b\x7d\x7b\x7d,").takeWhile isWordChar = e :=
    takeWhile_of_wordName h _ (by intro c hc; cases hc; decide)
  simp only [isMapEntryLine, List.append_assoc, htw]
  rw [Bool.and_eq_true]
  refine ⟨?_, by simp⟩
  cases e with
  | nil => exact absurd rfl (isWordName_ne_nil h)
  | cons c e' => rfl

theorem isConstDeclLine_mapLine {e : Text} (h : isWordName e = true) :
    isConstDeclLine (mapLine e) = false := by
  show isConstDeclLine ('\t' :: (e ++ lit ": struct\x7b\x7d\x7b\x7d,")) = false
  have htw : (e ++ lit ": struct\x7b\x7d\x7b\x7d,").takeWhile isWordChar = e :=
    takeWhile_of_wordName h _ (by intro c hc; cases hc; decide)
  simp only [isConstDeclLine, List.append_assoc, htw]
  rw [Bool.and_eq_false_iff]
  right
  rw [beq_eq_false_iff_ne]
  intro heq
  have hc : lit ": struct\x7b\x7d\x7b\x7d," = lit " PdhErrno = C." ++ e :=
    List.append_cancel_left heq
  have hh : (some ':' : Option Char) = some ' ' := by
    calc (some ':' : Option Char) = (lit ": struct\x7b\x7d\x7b\x7d,").head? := rfl
    _ = (lit " PdhErrno = C." ++ e).head? := by rw [hc]
    _ = some ' ' := rfl
  exact absurd hh (by decide)

theorem isMapEntryLine_constLine {e : Text} (h : isWordName e = true) :
    isMapEntryLine (constLine e) = false := by
  show isMapEntryLine ('\t' :: (e ++ lit " PdhErrno = C." ++ e)) = false
  have htw : (e ++ (lit " PdhErrno = C." ++ e)).takeWhile isWordChar = e :=
    takeWhile_of_wordName h _ (by intro c hc; cases hc; decide)
  simp only [isMapEntryLine, List.append_assoc, htw]
  rw [Bool.and_eq_false_iff]
  right
  rw [beq_eq_false_iff_ne]
  intro heq
  have hc : lit " PdhErrno = C." ++ e = lit ": struct\x7b\x7d\x7b\x7d," :=
    List.append_cancel_left heq
  have hh : (some ' ' : Option Char) = some ':' := by
    calc (some ' ' : Option Char) = (lit " PdhErrno = C." ++ e).head? := rfl
    _ = (lit ": struct\x7b\x7d\x7b\x7d,").head? := by rw [hc]
    _ = some ':' := rfl
  exact absurd hh (by decide)

set_option maxRecDepth 20000 in
theorem fixed_lines_fail_preds :
    ∀ l ∈ headerLines ++ midLines ++ tailLines,
      isConstDeclLine l = false ∧ isMapEntryLine l = false := by decide

set_option maxRecDepth 20000 in
/-- C5: for every Definition List of scanner-shaped names, the rendered
text decomposes into lines as the fixed header, one constant
declaration per entry in list order, the fixed middle, one membership
map entry per entry in list order, and the fixed tail; the
constant-declaration lines of the output are exactly `constLine` of the
entries (a tab, the name, ` PdhErrno = C.` and the same name again) and
the membership-map lines are exactly `mapLine` of the entries (the name
keying a `struct{}{}` value). -/
theorem rendered_declarations_exact (p : TemplateParams)
    (h : ∀ e ∈ p.Errors, isWordName e = true) :
    splitLines (tmplExecute p) =
      headerLines ++ p.Errors.map constLine ++ midLines ++ p.Errors.map mapLine ++ tailLines ∧
    (splitLines (tmplExecute p)).filter isConstDeclLine = p.Errors.map constLine ∧
    (splitLines (tmplExecute p)).filter isMapEntryLine = p.Errors.map mapLine := by
  have hmemH : ∀ l ∈ headerLines, '\n' ∉ l := fun l hl =>
    no_nl_fixed l (by simp [List.mem_append, hl])
  have hmemM : ∀ l ∈ midLines, '\n' ∉ l := fun l hl =>
    no_nl_fixed l (by simp [List.mem_append, hl])
  have hmemT : ∀ l ∈ tailLines, '\n' ∉ l := fun l hl =>
    no_nl_fixed l (by simp [List.mem_append, hl])
  have hdecomp : splitLines (tmplExecute p) =
      headerLines ++ (p.Errors.map constLine ++ (midLines ++
        (p.Errors.map mapLine ++ tailLines))) := by
    rw [tmplExecute_eq_joinl]
    apply splitLines_joinl
    · simp [headerLines]
    · intro l hl
      rcases List.mem_append.mp hl with hA | hrest
      · exact hmemH l hA
      · rcases List.mem_append.mp hrest with hC | hrest2
        · rcases List.mem_map.mp hC with ⟨e, he, rfl⟩
          exact no_nl_constLine (h e he)
        · rcases List.mem_append.mp hrest2 with hMid | hrest3
          · exact hmemM l hMid
          · rcases List.mem_append.mp hrest3 with hMap | hTail
            · rcases List.mem_map.mp hMap with ⟨e, he, rfl⟩
              exact no_nl_mapLine (h e he)
            · exact hmemT l hTail
  have hC1 : headerLines.filter isConstDeclLine = [] := by rfl
  have hC2 : midLines.filter isConstDeclLine = [] := by rfl
  have hC3 : tailLines.filter isConstDeclLine = [] := by rfl
  have hM1 : headerLines.filter isMapEntryLine = [] := by rfl
  have hM2 : midLines.filter isMapEntryLine = [] := by rfl
  have hM3 : tailLines.filter isMapEntryLine = [] := by rfl
  have hC4 : (p.Errors.map constLine).filter isConstDeclLine = p.Errors.map constLine :=
    List.filter_eq_self.mpr (by
      rintro l hl
      rcases List.mem_map.mp hl with ⟨e, he, rfl⟩
      exact isConstDeclLine_constLine (h e he))
  have hC5 : (p.Errors.map mapLine).filter isConstDeclLine = [] :=
    List.filter_eq_nil_iff.mpr (by
      rintro l hl
      rcases List.mem_map.mp hl with ⟨e, he, rfl⟩
      simp [isConstDeclLine_mapLine (h e he)])
  have hM4 : (p.Errors.map mapLine).filter isMapEntryLine = p.Errors.map mapLine :=
    List.filter_eq_self.mpr (by
      rintro l hl
      rcases List.mem_map.mp hl with ⟨e, he, rfl⟩
      exact isMapEntryLine_mapLine (h e he))
  have hM5 : (p.Errors.map constLine).filter isMapEntryLine = [] :=
    List.filter_eq_nil_iff.mpr (by
      rintro l hl
      rcases List.mem_map.mp hl with ⟨e, he, rfl⟩
      simp [isMapEntryLine_constLine (h e he)])
  refine ⟨by rw [hdecomp]; simp [List.append_assoc], ?_, ?_⟩
  · rw [hdecomp]
    simp [List.filter_append, hC1, hC2, hC3, hC4, hC5]
  · rw [hdecomp]
    simp [List.filter_append, hM1, hM2, hM3, hM4, hM5]

/-- The Definition List of the determinism scenario of the spec. -/
def demoParams : TemplateParams :=
  ⟨[lit "PDH_CSTATUS_VALID_DATA", lit "PDH_CSTATUS_NEW_DATA"]⟩

theorem rendered_declarations_exact_witness :
    (∀ e ∈ demoParams.Errors, isWordName e = true) ∧
    (splitLines (tmplExecute demoParams) =
      headerLines ++ demoParams.Errors.map constLine ++ midLines ++
        demoParams.Errors.map mapLine ++ tailLines ∧
    (splitLines (tmplExecute demoParams)).filter isConstDeclLine =
      demoParams.Errors.map constLine ∧
    (splitLines (tmplExecute demoParams)).filter isMapEntryLine =
      demoParams.Errors.map mapLine) :=
  ⟨by decide, rendered_declarations_exact demoParams (by decide)⟩

/-- C4: the renderer is a pure function of the Definition List: two
parameter records carrying equal lists render byte-identical text. In
particular two runs on `[PDH_CSTATUS_VALID_DATA, PDH_CSTATUS_NEW_DATA]`
agree. -/
theorem renderer_deterministic (p q : TemplateParams) (h : p.Errors = q.Errors) :
    tmplExecute p = tmplExecute q := by
  cases p; cases q; cases h; rfl

theorem renderer_deterministic_witness :
    demoParams.Errors = demoParams.Errors ∧
    tmplExecute demoParams = tmplExecute demoParams :=
  ⟨rfl, renderer_deterministic demoParams demoParams rfl⟩

set_option maxRecDepth 20000 in
/-- C7: on the empty Definition List the renderer still succeeds (it is
a total function) and produces the three fixed chunks with no entry
lines: the line decomposition is header, middle and tail only, the
error-constants block is the empty `const (` immediately followed by
`)`, and the fixed counter-format block (the `PdhCounterFormat` type
and the six hand-authored flag constants) is present in full. -/
theorem renderer_empty_list_output :
    tmplExecute ⟨[]⟩ = headerText ++ midText ++ tailText ∧
    splitLines (tmplExecute ⟨[]⟩) = headerLines ++ midLines ++ tailLines ∧
    (∃ pre post, splitLines (tmplExecute ⟨[]⟩) =
      pre ++ [lit "const (", lit ")"] ++ post) ∧
    (∃ pre post, splitLines (tmplExecute ⟨[]⟩) =
      pre ++ counterFormatLines ++ post) := by
  have hmem : ∀ l ∈ headerLines ++ (midLines ++ tailLines), '\n' ∉ l := by
    intro l hl
    exact no_nl_fixed l (by simpa [List.mem_append, or_assoc] using hl)
  have hsplit : splitLines (tmplExecute ⟨[]⟩) = headerLines ++ (midLines ++ tailLines) := by
    rw [tmplExecute_eq_joinl]
    simp only [List.map_nil, List.nil_append]
    exact splitLines_joinl _ (by simp [headerLines]) hmem
  refine ⟨?_, ?_, ?_, ?_⟩
  · simp [tmplExecute, fileTemplateNodes, execNode, List.append_assoc]
  · rw [hsplit]; simp [List.append_assoc]
  · exact ⟨headerLines.dropLast,
      [lit "", lit "var pdhErrors = map[PdhErrno]struct\x7b\x7d\x7b"] ++ tailLines,
      by rw [hsplit]; rfl⟩
  · exact ⟨headerLines ++ midLines ++ [lit "\x7d", lit ""], [lit ""],
      by rw [hsplit]; simp [tailLines, List.append_assoc]⟩

/-- Default of the registered flag:
`flag.String("output", "defs_pdh_windows.go", "output file")`. -/
def outputFlagDefault : String := "defs_pdh_windows.go"

/-- The value read through `*output` for a given command line. The
`flag` package updates a registered flag only inside `flag.Parse`, and
`main` never calls `flag.Parse`, so every dereference of `output`
yields the registered default, whatever the argument vector is. -/
def outputValue (_argv : List String) : String := outputFlagDefault

/-- Modelled from the spec: the claimed command-line surface — one flag
`output` whose supplied value (as `-output value` or `-output=value`)
names the destination artifact path, with the fixed default when the
flag is absent. -/
def outputValueClaimed (argv : List String) : String :=
  match argv with
  | [] => outputFlagDefault
  | a :: rest =>
    if a = "-output" then
      match rest with
      | v :: _ => v
      | [] => outputFlagDefault
    else
      match dropLiteral (lit "-output=") a.data with
      | some v => String.mk v
      | none => outputValueClaimed rest

/-- The file system seen by the run: an association of paths to
contents. -/
abbrev FS := List (String × Text)

/-- Create or truncate-and-write a file. -/
def setFile (fs : FS) (path : String) (content : Text) : FS :=
  match fs with
  | [] => [(path, content)]
  | (p, c) :: rest =>
    if p = path then (path, content) :: rest else (p, c) :: setFile rest path content

/-- Read a file. -/
def getFile (fs : FS) (path : String) : Option Text :=
  match fs with
  | [] => none
  | (p, c) :: rest => if p = path then some c else getFile rest path

/-- The external collaborators of one run: the outcome of the gcc
invocation, whether `os.Create` succeeds on the destination, and the
gofmt tool as a function from the file content it reads to either the
rewritten content or a failure. -/
structure Env where
  gcc : Except GoError CmdOutput
  createOk : Bool
  gofmt : Text → Except GoError Text

/-- Translation of `writeOutput`: create (truncating) the destination
and write the executed template into it; on creation failure the file
system is left as it was and the error is returned. The handle is
closed on every path (`defer f.Close()`), which the value-level model
needs no extra state for. -/
def writeOutput (env : Env) (path : String) (fs : FS) (p : TemplateParams) :
    Except GoError FS :=
  if env.createOk then .ok (setFile fs path (tmplExecute p)) else .error "create failed"

/-- Translation of `gofmtOutput`: run `gofmt -w` on the destination,
which on success rewrites the file in place with the formatted content
and on failure leaves the file untouched. -/
def gofmtOutput (env : Env) (path : String) (fs : FS) : Except GoError FS :=
  match env.gofmt ((getFile fs path).getD []) with
  | .error e => .error e
  | .ok formatted => .ok (setFile fs path formatted)

/-- The pipeline steps, for the execution trace. -/
inductive Step where
  | expand
  | scan
  | write
  | format
deriving DecidableEq

/-- Observable outcome of one run of `main`: the process exit code, the
final file system, the diagnostics printed to the error stream, and the
pipeline steps that ran, in order. -/
structure MainResult where
  exitCode : Nat
  fs : FS
  stderr : List String
  trace : List Step

/-- Translation of `main`: scan (aborting with exit code 1 and an
`error: ...` diagnostic if gcc failed), render and write (same abort on
failure), format (same abort on failure), and exit 0. -/
def runMain (env : Env) (argv : List String) (fs₀ : FS) : MainResult :=
  match getErrorDefines env.gcc with
  | .error e => ⟨1, fs₀, ["error: " ++ e], [.expand]⟩
  | .ok errors =>
    match writeOutput env (outputValue argv) fs₀ ⟨errors⟩ with
    | .error e => ⟨1, fs₀, ["error: " ++ e], [.expand, .scan, .write]⟩
    | .ok fs₁ =>
      match gofmtOutput env (outputValue argv) fs₁ with
      | .error e => ⟨1, fs₁, ["error: " ++ e], [.expand, .scan, .write, .format]⟩
      | .ok fs₂ => ⟨0, fs₂, [], [.expand, .scan, .write, .format]⟩

theorem getFile_setFile (fs : FS) (path : String) (content : Text) :
    getFile (setFile fs path content) path = some content := by
  induction fs with
  | nil => simp [setFile, getFile]
  | cons pc rest ih =>
    obtain ⟨p, c⟩ := pc
    by_cases hp : p = path
    · simp [setFile, getFile, hp]
    · simp [setFile, getFile, hp, ih]


/-- C9: the process exits 0 exactly when gcc, file creation and gofmt
all succeed (scanning and rendering have no failing case in the
source); the error stream is empty exactly on success (every failure
prints one `error: ...` diagnostic); the exit code is 0 or 1; and the
trace runs each step at most once, in pipeline order, stopping at the
failing step — no retry and no re-entry. -/
theorem pipeline_exit_code_spec (env : Env) (argv : List String) (fs₀ : FS) :
    ((runMain env argv fs₀).exitCode = 0 ↔
      (∃ out, env.gcc = .ok out ∧ env.createOk = true ∧
        ∃ t, env.gofmt (tmplExecute ⟨getErrorDefinesLoop out.lines []⟩) = .ok t)) ∧
    ((runMain env argv fs₀).stderr = [] ↔ (runMain env argv fs₀).exitCode = 0) ∧
    ((runMain env argv fs₀).exitCode = 0 ∨ (runMain env argv fs₀).exitCode = 1) ∧
    (runMain env argv fs₀).trace.Nodup ∧
    (∃ t, (runMain env argv fs₀).trace ++ t =
      [Step.expand, Step.scan, Step.write, Step.format]) := by
  cases hg : env.gcc with
  | error e =>
    have hrun : runMain env argv fs₀ = ⟨1, fs₀, ["error: " ++ e], [.expand]⟩ := by
      simp [runMain, getErrorDefines, hg]
    rw [hrun]
    refine ⟨?_, by simp, Or.inr rfl,
      by show List.Nodup [Step.expand]; decide, ⟨[.scan, .write, .format], rfl⟩⟩
    constructor
    · intro h; exact absurd h (by simp)
    · rintro ⟨out, hout, -⟩
      exact absurd hout (by simp)
  | ok out =>
    cases hc : env.createOk with
    | false =>
      have hw : writeOutput env (outputValue argv) fs₀ ⟨getErrorDefinesLoop out.lines []⟩ =
          .error "create failed" := by
        simp [writeOutput, hc]
      have hrun : runMain env argv fs₀ =
          ⟨1, fs₀, ["error: " ++ "create failed"], [.expand, .scan, .write]⟩ := by
        simp [runMain, getErrorDefines, hg, hw]
      rw [hrun]
      refine ⟨?_, by simp, Or.inr rfl,
        by show List.Nodup [Step.expand, Step.scan, Step.write]; decide, ⟨[.format], rfl⟩⟩
      constructor
      · intro h; exact absurd h (by simp)
      · rintro ⟨out', -, hcreate, -⟩
        exact absurd hcreate (by simp)
    | true =>
      have hw : writeOutput env (outputValue argv) fs₀ ⟨getErrorDefinesLoop out.lines []⟩ =
          .ok (setFile fs₀ (outputValue argv)
            (tmplExecute ⟨getErrorDefinesLoop out.lines []⟩)) := by
        simp [writeOutput, hc]
      have hget : (getFile (setFile fs₀ (outputValue argv)
          (tmplExecute ⟨getErrorDefinesLoop out.lines []⟩)) (outputValue argv)).getD [] =
          tmplExecute ⟨getErrorDefinesLoop out.lines []⟩ := by
        rw [getFile_setFile]; rfl
      cases hf : env.gofmt (tmplExecute ⟨getErrorDefinesLoop out.lines []⟩) with
      | error e =>
        have hgo : gofmtOutput env (outputValue argv) (setFile fs₀ (outputValue argv)
            (tmplExecute ⟨getErrorDefinesLoop out.lines []⟩)) = .error e := by
          simp only [gofmtOutput, hget, hf]
        have hrun : runMain env argv fs₀ =
            ⟨1, setFile fs₀ (outputValue argv)
               (tmplExecute ⟨getErrorDefinesLoop out.lines []⟩),
             ["error: " ++ e], [.expand, .scan, .write, .format]⟩ := by
          simp [runMain, getErrorDefines, hg, hw, hgo]
        rw [hrun]
        refine ⟨?_, by simp, Or.inr rfl,
          by show List.Nodup [Step.expand, Step.scan, Step.write, Step.format]; decide,
          ⟨[], rfl⟩⟩
        constructor
        · intro h; exact absurd h (by simp)
        · rintro ⟨out', hout, -, t, hfmt⟩
          injection hout with hout'
          subst hout'
          rw [hf] at hfmt
          exact absurd hfmt (by simp)
      | ok t =>
        have hgo : gofmtOutput env (outputValue argv) (setFile fs₀ (outputValue argv)
            (tmplExecute ⟨getErrorDefinesLoop out.lines []⟩)) =
            .ok (setFile (setFile fs₀ (outputValue argv)
              (tmplExecute ⟨getErrorDefinesLoop out.lines []⟩)) (outputValue argv) t) := by
          simp only [gofmtOutput, hget, hf]
        have hrun : runMain env argv fs₀ =
            ⟨0, setFile (setFile fs₀ (outputValue argv)
                (tmplExecute ⟨getErrorDefinesLoop out.lines []⟩)) (outputValue argv) t,
             [], [.expand, .scan, .write, .format]⟩ := by
          simp [runMain, getErrorDefines, hg, hw, hgo]
        rw [hrun]
        exact ⟨⟨fun _ => ⟨out, rfl, rfl, t, hf⟩, fun _ => rfl⟩, by simp, Or.inl rfl,
          by show List.Nodup [Step.expand, Step.scan, Step.write, Step.format]; decide,
          ⟨[], rfl⟩⟩

/-- C8: if gcc and the write succeed and gofmt then fails, the
destination file still holds the full rendered (unformatted) text and
the process exits nonzero: the write is not rolled back. -/
theorem write_not_rolled_back_on_gofmt_failure (env : Env) (argv : List String) (fs₀ : FS)
    (out : CmdOutput) (e : GoError)
    (hg : env.gcc = .ok out) (hc : env.createOk = true)
    (hf : env.gofmt (tmplExecute ⟨getErrorDefinesLoop out.lines []⟩) = .error e) :
    getFile (runMain env argv fs₀).fs (outputValue argv) =
      some (tmplExecute ⟨getErrorDefinesLoop out.lines []⟩) ∧
    (runMain env argv fs₀).exitCode = 1 := by
  have hw : writeOutput env (outputValue argv) fs₀ ⟨getErrorDefinesLoop out.lines []⟩ =
      .ok (setFile fs₀ (outputValue argv)
        (tmplExecute ⟨getErrorDefinesLoop out.lines []⟩)) := by
    simp [writeOutput, hc]
  have hget : (getFile (setFile fs₀ (outputValue argv)
      (tmplExecute ⟨getErrorDefinesLoop out.lines []⟩)) (outputValue argv)).getD [] =
      tmplExecute ⟨getErrorDefinesLoop out.lines []⟩ := by
    rw [getFile_setFile]; rfl
  have hgo : gofmtOutput env (outputValue argv) (setFile fs₀ (outputValue argv)
      (tmplExecute ⟨getErrorDefinesLoop out.lines []⟩)) = .error e := by
    simp only [gofmtOutput, hget, hf]
  have hrun : runMain env argv fs₀ =
      ⟨1, setFile fs₀ (outputValue argv)
         (tmplExecute ⟨getErrorDefinesLoop out.lines []⟩),
       ["error: " ++ e], [.expand, .scan, .write, .format]⟩ := by
    simp [runMain, getErrorDefines, hg, hw, hgo]
  rw [hrun]
  exact ⟨getFile_setFile fs₀ (outputValue argv) _, rfl⟩

/-- An environment in which gcc and the write succeed and gofmt fails. -/
def envGofmtFail : Env :=
  { gcc := .ok { lines := [lit "#define PDH_X 1"], fault := false },
    createOk := true,
    gofmt := fun _ => .error "exit status 2" }

theorem write_not_rolled_back_witness :
    envGofmtFail.gcc = .ok { lines := [lit "#define PDH_X 1"], fault := false } ∧
    envGofmtFail.createOk = true ∧
    envGofmtFail.gofmt (tmplExecute
      ⟨getErrorDefinesLoop [lit "#define PDH_X 1"] []⟩) = .error "exit status 2" ∧
    (getFile (runMain envGofmtFail [] []).fs (outputValue []) =
      some (tmplExecute ⟨getErrorDefinesLoop [lit "#define PDH_X 1"] []⟩) ∧
     (runMain envGofmtFail [] []).exitCode = 1) :=
  ⟨rfl, rfl, rfl,
    write_not_rolled_back_on_gofmt_failure envGofmtFail [] []
      { lines := [lit "#define PDH_X 1"], fault := false } "exit status 2" rfl rfl rfl⟩

/-- An environment in which every external step succeeds and gofmt is
the identity rewrite. -/
def envAllOk : Env :=
  { gcc := .ok { lines := [lit "#define PDH_X 1"], fault := false },
    createOk := true,
    gofmt := fun t => .ok t }

set_option maxRecDepth 20000 in
/-- C2: evaluation of the run at the failing input
`-output=custom.go`. Because `main` never calls `flag.Parse`, the value
read through the `output` flag is the registered default whatever the
command line says, so the run writes `defs_pdh_windows.go` and creates
no `custom.go` — while the spec-modelled command-line surface
(`outputValueClaimed`) selects `custom.go`. -/
theorem output_flag_never_parsed :
    outputValue ["-output=custom.go"] = "defs_pdh_windows.go" ∧
    outputValueClaimed ["-output=custom.go"] = "custom.go" ∧
    outputValue [] = "defs_pdh_windows.go" ∧
    getFile (runMain envAllOk ["-output=custom.go"] []).fs "custom.go" = none ∧
    getFile (runMain envAllOk ["-output=custom.go"] []).fs "defs_pdh_windows.go" =
      some (tmplExecute ⟨[lit "PDH_X"]⟩) := by
  refine ⟨rfl, by rfl, rfl, by rfl, by rfl⟩
